import Mathlib

/-!
Verification of the rank-query web tool (`app.py`).

The development shallow-embeds the data-processing core of the program:

* `process_header` / `process_cell` — the normalizer (header suffix removal,
  cell suffix stripping and zero padding);
* `query_stock_rank` — the rank query over a loaded table;
* `generate_rank_text` — the tab-separated text presenter;
* `index` — the POST branch of the request handler (form parsing order and
  validation), with file processing abstracted as an optional loaded table.

Python primitives (`int()`, `str.replace`, `str.strip`, `str.zfill`,
`re.match r'^\d{1,6}$'`, negative-index slicing, insertion-ordered dicts)
are modelled explicitly over `List Char` so that every definition is
executable by the kernel.
-/

/-- Characters removed by Python `str.strip()` / ignored around `int()`
literals (ASCII whitespace). -/
def isPySpace (c : Char) : Bool :=
  c == ' ' || c == '\t' || c == '\n' || c == '\r' || c == '\x0b' || c == '\x0c'

/-- Test whether `s` begins with `pat`. -/
def listStartsWith : List Char → List Char → Bool
  | _, [] => true
  | [], _ :: _ => false
  | a :: s, b :: p => a == b && listStartsWith s p

/-- Fueled worker for `replaceAll`; one unit of fuel per step.  With fuel
`s.length` and a non-empty pattern this computes Python
`s.replace(pat, "")` (left-to-right, non-overlapping occurrences). -/
def replaceFuel (pat : List Char) : Nat → List Char → List Char
  | 0, s => s
  | _ + 1, [] => []
  | n + 1, c :: rest =>
    if listStartsWith (c :: rest) pat then
      replaceFuel pat n ((c :: rest).drop pat.length)
    else
      c :: replaceFuel pat n rest

/-- Python `s.replace(pat, "")` for a non-empty pattern. -/
def replaceAll (pat s : List Char) : List Char :=
  replaceFuel pat s.length s

/-- Python `s.replace(pat, "")` on strings. -/
def pyReplace (s pat : String) : String :=
  ⟨replaceAll pat.data s.data⟩

/-- Python `str.strip()` on the character list. -/
def stripList (cs : List Char) : List Char :=
  ((cs.dropWhile isPySpace).reverse.dropWhile isPySpace).reverse

/-- Python `str.strip()`. -/
def pyStrip (s : String) : String :=
  ⟨stripList s.data⟩

/-- Python `str.zfill(width)`: left-pad with `'0'` to `width`, keeping a
leading sign in place. -/
def pyZfill (s : String) (width : Nat) : String :=
  if width ≤ s.data.length then s
  else
    match s.data with
    | [] => ⟨List.replicate width '0'⟩
    | c :: rest =>
      if c == '+' || c == '-' then
        ⟨c :: (List.replicate (width - s.data.length) '0' ++ rest)⟩
      else
        ⟨List.replicate (width - s.data.length) '0' ++ s.data⟩

/-- Numeric value of a digit character. -/
def digitVal (c : Char) : Nat := c.toNat - '0'.toNat

/-- Value of a list of digit characters read in base 10. -/
def natOfDigits (cs : List Char) : Nat :=
  cs.foldl (fun n c => n * 10 + digitVal c) 0

/-- No two consecutive underscores (Python integer-literal rule). -/
def noDoubleUnderscore : List Char → Bool
  | a :: b :: t => !(a == '_' && b == '_') && noDoubleUnderscore (b :: t)
  | _ => true

/-- The digit part of Python `int()`: ASCII digits with optional single
underscores between them. -/
def pyIntDigits (cs : List Char) : Option Nat :=
  if cs.isEmpty then none
  else if cs.head? == some '_' || cs.getLast? == some '_' then none
  else if !(cs.all fun c => c.isDigit || c == '_') then none
  else if !noDoubleUnderscore cs then none
  else some (natOfDigits (cs.filter fun c => !(c == '_')))

/-- Python `int(s)` on a string: surrounding whitespace ignored, optional
sign, base-10 digits; `none` when `int()` would raise `ValueError`. -/
def pyInt (s : String) : Option Int :=
  match stripList s.data with
  | [] => none
  | c :: rest =>
    if c = '-' then (pyIntDigits rest).map (fun n => -(n : Int))
    else if c = '+' then (pyIntDigits rest).map (fun n => (n : Int))
    else (pyIntDigits (c :: rest)).map (fun n => (n : Int))

/-- Digit-class characters beyond the ASCII decimal digits: Python
`str.isdigit()` also accepts characters of Unicode `Numeric_Type=Digit`,
which `int()` rejects.  Modelled here by the Latin-1 and the
superscript and subscript digit characters. -/
def pyDigitExtras : List Char :=
  ['¹', '²', '³', '⁰', '⁴', '⁵', '⁶', '⁷', '⁸', '⁹',
   '₀', '₁', '₂', '₃', '₄', '₅', '₆', '₇', '₈', '₉']

/-- A character Python `str.isdigit()` accepts: a decimal digit or a
digit-class character such as `'²'`. -/
def pyIsdigitChar (c : Char) : Bool :=
  c.isDigit || decide (c ∈ pyDigitExtras)

/-- Python `s.isdigit()`: non-empty and every character of digit class.
Note this is wider than what `int()` accepts: `"²²²²²²".isdigit()` is
true while `int("²²²²²²")` raises. -/
def pyIsdigit (s : String) : Bool :=
  !s.data.isEmpty && s.data.all pyIsdigitChar

/-- Effective start index of a Python slice `l[i:_]` on a list of length
`L`: negative indices count from the end and clamp at `0`, non-negative
ones clamp at `L`. -/
def pySliceStart (L : Nat) (i : Int) : Nat :=
  if i < 0 then ((L : Int) + i).toNat else min i.toNat L

/-! ### The normalizer (`process_header`, `process_cell`) -/

/-- The header normalizer `process_header`: drop every occurrence of
`"00:00:00"` from each column label and strip surrounding whitespace
(`app.py` line 22). -/
def process_header (header : List String) : List String :=
  header.map fun col => pyStrip (pyReplace col "00:00:00")

/-- Suffix stripping of `process_cell`: remove all occurrences of
`".csv"`, `".SH"`, `".SZ"` in that order (`app.py` line 28). -/
def stripSuffixes (v : String) : String :=
  pyReplace (pyReplace (pyReplace v ".csv") ".SH") ".SZ"

/-- The test `re.match(r'^\d{1,6}$', value)` of `app.py` line 29: 1 to 6
ASCII digits, where `$` also matches just before one trailing newline. -/
def matchesDigits16 (s : String) : Bool :=
  let core := if s.data.getLast? == some '\n' then s.data.dropLast else s.data
  !core.isEmpty && core.length ≤ 6 && core.all Char.isDigit

/-- The cell normalizer `process_cell`: strip the three suffixes, then
zero-pad to six characters when the remainder matches the digit pattern
(`app.py` lines 25-31). -/
def process_cell (value : String) : String :=
  let v := stripSuffixes value
  if matchesDigits16 v then pyZfill v 6 else v

/-! ### The loaded table and the rank query (`query_stock_rank`) -/

/-- A loaded table (`pandas.DataFrame` as read by `load_data`): the date
columns in their left-to-right order, each a label with its column of
values, followed by the rightmost identifier column `new_predict`
holding the integer codes. -/
structure DataFrame (α : Type) where
  dateCols : List (String × List α)
  idCol : List Int

/-- Total number of columns of the table (`len(df.columns)`). -/
def DataFrame.numCols {α : Type} (df : DataFrame α) : Nat :=
  df.dateCols.length + 1

/-- Python `dict` insertion: overwrite in place when the key is present,
append otherwise. -/
def dictInsert (d : List (String × Nat)) (k : String) (v : Nat) : List (String × Nat) :=
  if d.any (fun p => p.1 == k) then d.map (fun p => if p.1 == k then (k, v) else p)
  else d ++ [(k, v)]

/-- The column sorted in descending order,
`df[column].sort_values(ascending=False)`. -/
def sortDesc {α : Type} [LinearOrder α] (l : List α) : List α :=
  List.insertionSort (fun a b => b ≤ a) l

/-- Rank of `target` in a column (`app.py` lines 75-76): one plus the
index of the first value equal to `target` in the descending sort. -/
def colRank {α : Type} [LinearOrder α] (values : List α) (target : α) : Nat :=
  (sortDesc values).findIdx (fun x => decide (x = target)) + 1

/-- The selected date columns, `df.columns[-n_days - 1:-1]` (`app.py`
line 72).  The end index `-1` always cuts exactly the identifier column,
so the slice is a tail-slice of the date columns. -/
def recentColumns {α : Type} (df : DataFrame α) (n_days : Int) : List (String × List α) :=
  df.dateCols.drop (pySliceStart (df.dateCols.length + 1) (-n_days - 1))

/-- The rank query `query_stock_rank` (`app.py` lines 55-78): parse the
code, look up the row, bound the window, then rank the target value in
each selected column. -/
def query_stock_rank {α : Type} [LinearOrder α] [Inhabited α]
    (df : DataFrame α) (stock_code : String) (n_days : Int) :
    Option (List (String × Nat)) × Option String :=
  match pyInt stock_code with
  | none => (none, some "股票代码必须是六位数字")
  | some code =>
    if code ∈ df.idCol then
      let max_days : Int := (df.dateCols.length + 1 : Int) - 1
      if n_days > max_days then
        (none, some ("查询天数超过最大天数 " ++ toString max_days))
      else
        let row := df.idCol.findIdx (fun x => decide (x = code))
        let recent := recentColumns df n_days
        let ranks := recent.foldl
          (fun d c => dictInsert d c.1 (colRank c.2 (c.2.getD row default))) []
        (some ranks, none)
    else (none, some "股票代码未找到")

/-! ### The presenter and the request handler -/

/-- The text presenter `generate_rank_text` (`app.py` lines 118-123):
header line, then one tab-separated line per entry in iteration order. -/
def generate_rank_text (ranks : List (String × Nat)) : String :=
  ranks.foldl (fun text p => text ++ p.1 ++ "\t" ++ toString p.2 ++ "\n") "日期\t排名\n"

/-- Lookup in the insertion-ordered dict produced by the rank query. -/
def dictLookup (d : List (String × Nat)) (k : String) : Option Nat :=
  (d.find? fun p => p.1 == k).map Prod.snd

/-- Outcome of one POST request to `index`. -/
inductive HandlerResult where
  /-- An uncaught exception escapes the handler (no page is rendered). -/
  | valueError : HandlerResult
  /-- Rendered `index.html` with an error message and optional `max_days`. -/
  | errorPage : String → Option Int → HandlerResult
  /-- The bare string returned when file processing fails. -/
  | plainText : String → HandlerResult
  /-- Rendered `result.html` with the code and the rank series. -/
  | resultPage : String → List (String × Nat) → HandlerResult
deriving DecidableEq

/-- The POST branch of `index` (`app.py` lines 128-155).  `processed` is
the table produced by `process_table` + `load_data`, `none` when file
processing failed.  `int(request.form.get("n_days"))` runs first; a
non-integer field raises an uncaught `ValueError`. -/
def index {α : Type} [LinearOrder α] [Inhabited α]
    (processed : Option (DataFrame α)) (stock_code n_days_field : String) :
    HandlerResult :=
  match pyInt n_days_field with
  | none => HandlerResult.valueError
  | some n_days =>
    if !(pyIsdigit stock_code && stock_code.data.length == 6) then
      HandlerResult.errorPage "股票代码必须是六位数字" none
    else
      match processed with
      | none => HandlerResult.plainText "文件处理失败，请检查文件路径。"
      | some df =>
        match query_stock_rank df stock_code n_days with
        | (_, some err) =>
          HandlerResult.errorPage err (some ((df.dateCols.length + 1 : Int) - 1))
        | (result, none) =>
          HandlerResult.resultPage stock_code (result.getD [])

/-- A sample canonical table: two date columns and two rows, identifier
codes `1` and `2`. -/
def tableA : DataFrame Int :=
  ⟨[("d1", [10, 3]), ("d2", [5, 7])], [1, 2]⟩

/-- A second, unrelated sample table. -/
def tableB : DataFrame Int :=
  ⟨[("x", [1])], [42]⟩

instance {α : Type} [LinearOrder α] : IsTotal α (fun a b => b ≤ a) :=
  ⟨fun a b => le_total b a⟩

instance {α : Type} [LinearOrder α] : IsTrans α (fun a b => b ≤ a) :=
  ⟨fun _ _ _ h1 h2 => le_trans h2 h1⟩

/-! ### Helper lemmas on the Python primitives -/

theorem head?_mem {l : List Char} {x : Char} (h : l.head? = some x) : x ∈ l := by
  cases l with
  | nil => simp at h
  | cons a t =>
    rw [List.head?_cons] at h
    have := Option.some.inj h
    subst this
    exact List.mem_cons_self a t

theorem dropWhile_head?_not {p : Char → Bool} :
    ∀ (l : List Char) (x : Char), (l.dropWhile p).head? = some x → p x = false := by
  intro l
  induction l with
  | nil => intro x h; simp at h
  | cons a t ih =>
    intro x h
    cases hp : p a with
    | true =>
      rw [List.dropWhile_cons_of_pos hp] at h
      exact ih x h
    | false =>
      rw [List.dropWhile_cons_of_neg (by simp [hp])] at h
      rw [List.head?_cons] at h
      have := Option.some.inj h
      subst this
      exact hp

theorem dropWhile_eq_self_of_head {p : Char → Bool} (l : List Char)
    (h : ∀ x, l.head? = some x → p x = false) : l.dropWhile p = l := by
  cases l with
  | nil => rfl
  | cons a t => exact List.dropWhile_cons_of_neg (by simp [h a rfl])

theorem dropWhile_idem {p : Char → Bool} (l : List Char) :
    (l.dropWhile p).dropWhile p = l.dropWhile p :=
  dropWhile_eq_self_of_head _ (fun x hx => dropWhile_head?_not l x hx)

theorem getLast?_dropWhile {p : Char → Bool} :
    ∀ (l : List Char), l.dropWhile p ≠ [] → (l.dropWhile p).getLast? = l.getLast? := by
  intro l
  induction l with
  | nil => intro h; simp at h
  | cons a t ih =>
    intro h
    cases hp : p a with
    | false => rw [List.dropWhile_cons_of_neg (by simp [hp])]
    | true =>
      rw [List.dropWhile_cons_of_pos hp] at h ⊢
      rw [ih h]
      cases t with
      | nil => exact absurd rfl h
      | cons b u => rw [List.getLast?_cons_cons]

theorem stripList_idem (cs : List Char) : stripList (stripList cs) = stripList cs := by
  unfold stripList
  have h1 : ((((cs.dropWhile isPySpace).reverse.dropWhile isPySpace).reverse).dropWhile
      isPySpace) = ((cs.dropWhile isPySpace).reverse.dropWhile isPySpace).reverse := by
    apply dropWhile_eq_self_of_head
    intro x hx
    rw [List.head?_reverse] at hx
    have hrne : (cs.dropWhile isPySpace).reverse.dropWhile isPySpace ≠ [] := by
      intro h0
      rw [h0] at hx
      simp at hx
    rw [getLast?_dropWhile _ hrne, List.getLast?_reverse] at hx
    exact dropWhile_head?_not cs x hx
  rw [h1, List.reverse_reverse, dropWhile_idem]

theorem pyStrip_idem (s : String) : pyStrip (pyStrip s) = pyStrip s :=
  congrArg String.mk (stripList_idem s.data)

/-! ### Helper lemmas on the dict and the sort -/

theorem dictInsert_of_not_mem {d : List (String × Nat)} {k : String} (v : Nat)
    (h : k ∉ d.map Prod.fst) : dictInsert d k v = d ++ [(k, v)] := by
  unfold dictInsert
  rw [if_neg]
  simp only [List.any_eq_true, beq_iff_eq, not_exists]
  rintro p ⟨hp, rfl⟩
  exact h (List.mem_map_of_mem Prod.fst hp)

theorem length_le_dictInsert (d : List (String × Nat)) (k : String) (v : Nat) :
    d.length ≤ (dictInsert d k v).length := by
  unfold dictInsert
  split
  · simp
  · simp

theorem foldl_dictInsert_eq_map {α : Type} (g : String × List α → Nat) :
    ∀ (cols : List (String × List α)) (acc : List (String × Nat)),
      (acc.map Prod.fst ++ cols.map Prod.fst).Nodup →
      cols.foldl (fun d c => dictInsert d c.1 (g c)) acc
        = acc ++ cols.map (fun c => (c.1, g c)) := by
  intro cols
  induction cols with
  | nil => intro acc _; simp
  | cons c t ih =>
    intro acc h
    have hfresh : c.1 ∉ acc.map Prod.fst := by
      rw [List.map_cons, List.nodup_append] at h
      intro hc
      exact h.2.2 hc (List.mem_cons_self _ _)
    have h' : ((acc ++ [(c.1, g c)]).map Prod.fst ++ t.map Prod.fst).Nodup := by
      simpa [List.append_assoc] using h
    rw [List.foldl_cons, dictInsert_of_not_mem _ hfresh, ih _ h', List.map_cons,
      List.append_assoc]
    rfl

theorem length_le_foldl_dictInsert {α : Type} (g : String × List α → Nat) :
    ∀ (cols : List (String × List α)) (acc : List (String × Nat)),
      acc.length ≤ (cols.foldl (fun d c => dictInsert d c.1 (g c)) acc).length := by
  intro cols
  induction cols with
  | nil => intro acc; simp
  | cons c t ih =>
    intro acc
    rw [List.foldl_cons]
    exact le_trans (length_le_dictInsert acc c.1 (g c)) (ih _)

theorem dictLookup_map_self {α : Type} (g : String × List α → Nat) :
    ∀ (l : List (String × List α)), (l.map Prod.fst).Nodup →
      ∀ p ∈ l, dictLookup (l.map fun c => (c.1, g c)) p.1 = some (g p) := by
  intro l
  induction l with
  | nil => intro _ p hp; simp at hp
  | cons q t ih =>
    intro hnd p hp
    rw [List.map_cons, List.nodup_cons] at hnd
    rcases List.mem_cons.mp hp with rfl | hpt
    · unfold dictLookup
      rw [List.map_cons, List.find?_cons_of_pos _ (by simp)]
      rfl
    · have hne : (q.1 == p.1) = false := by
        simp only [beq_eq_false_iff_ne, ne_eq]
        intro he
        exact hnd.1 (he ▸ List.mem_map_of_mem Prod.fst hpt)
      unfold dictLookup
      rw [List.map_cons, List.find?_cons_of_neg _ (by simp [hne])]
      exact ih hnd.2 p hpt

theorem sortDesc_perm {α : Type} [LinearOrder α] (l : List α) : List.Perm (sortDesc l) l :=
  List.perm_insertionSort _ l

theorem sortDesc_head_max {α : Type} [LinearOrder α] {l : List α} {a : α} {t : List α}
    (h : sortDesc l = a :: t) : ∀ b ∈ l, b ≤ a := by
  intro b hb
  have hs : List.Sorted (fun x y => y ≤ x) (a :: t) :=
    h ▸ List.sorted_insertionSort _ l
  have hb' : b ∈ a :: t := h ▸ ((sortDesc_perm l).mem_iff.mpr hb)
  rcases List.mem_cons.mp hb' with rfl | hbt
  · exact le_refl b
  · exact List.rel_of_sorted_cons hs b hbt

theorem colRank_pos {α : Type} [LinearOrder α] (l : List α) (t : α) : 1 ≤ colRank l t := by
  unfold colRank
  omega

theorem colRank_le_length {α : Type} [LinearOrder α] {l : List α} {t : α} (ht : t ∈ l) :
    colRank l t ≤ l.length := by
  unfold colRank
  have h1 : t ∈ sortDesc l := (sortDesc_perm l).mem_iff.mpr ht
  have h2 : (sortDesc l).findIdx (fun x => decide (x = t)) < (sortDesc l).length :=
    List.findIdx_lt_length_of_exists ⟨t, h1, by simp⟩
  have h3 : (sortDesc l).length = l.length := (sortDesc_perm l).length_eq
  omega

theorem colRank_eq_one_of_max {α : Type} [LinearOrder α] {l : List α} {t : α}
    (ht : t ∈ l) (hmax : ∀ x ∈ l, x ≤ t) : colRank l t = 1 := by
  unfold colRank
  cases hs : sortDesc l with
  | nil =>
    have h1 : t ∈ sortDesc l := (sortDesc_perm l).mem_iff.mpr ht
    rw [hs] at h1
    simp at h1
  | cons a u =>
    have hat : a ∈ l := (sortDesc_perm l).mem_iff.mp (hs ▸ List.mem_cons_self a u)
    have h3 : a = t := le_antisymm (hmax a hat) (sortDesc_head_max hs t ht)
    rw [List.findIdx_cons]
    simp [h3]

/-! ### Helper lemmas on the query paths -/

theorem pySliceStart_window {D : Nat} {n : Int} (h1 : 1 ≤ n) (h2 : n ≤ (D : Int)) :
    pySliceStart (D + 1) (-n - 1) = D - n.toNat := by
  unfold pySliceStart
  rw [if_pos (by omega)]
  omega

theorem query_success {α : Type} [LinearOrder α] [Inhabited α]
    (df : DataFrame α) (sc : String) (n : Int) (code : Int)
    (hparse : pyInt sc = some code) (hmem : code ∈ df.idCol)
    (hle : n ≤ (df.dateCols.length : Int)) :
    query_stock_rank df sc n =
      (some ((recentColumns df n).foldl
        (fun d c => dictInsert d c.1
          (colRank c.2 (c.2.getD (df.idCol.findIdx fun x => decide (x = code)) default))) []),
       none) := by
  have hgt : ¬ ((df.dateCols.length : Int) + 1 - 1 < n) := by omega
  simp [query_stock_rank, hparse, hmem, hgt, hle]

theorem query_invalid {α : Type} [LinearOrder α] [Inhabited α]
    (df : DataFrame α) (sc : String) (n : Int) (h : pyInt sc = none) :
    query_stock_rank df sc n = (none, some "股票代码必须是六位数字") := by
  simp [query_stock_rank, h]

theorem query_notfound {α : Type} [LinearOrder α] [Inhabited α]
    (df : DataFrame α) (sc : String) (n : Int) (code : Int)
    (hparse : pyInt sc = some code) (hmem : code ∉ df.idCol) :
    query_stock_rank df sc n = (none, some "股票代码未找到") := by
  simp [query_stock_rank, hparse, hmem]

theorem query_exceeds {α : Type} [LinearOrder α] [Inhabited α]
    (df : DataFrame α) (sc : String) (n : Int) (code : Int)
    (hparse : pyInt sc = some code) (hmem : code ∈ df.idCol)
    (hgt : (df.dateCols.length : Int) < n) :
    query_stock_rank df sc n =
      (none, some ("查询天数超过最大天数 " ++ toString ((df.dateCols.length : Int) + 1 - 1))) := by
  have hgt' : (df.dateCols.length : Int) + 1 - 1 < n := by omega
  simp [query_stock_rank, hparse, hmem, hgt', hgt]

theorem query_success_inv {α : Type} [LinearOrder α] [Inhabited α]
    {df : DataFrame α} {sc : String} {n : Int} {rs : List (String × Nat)}
    (h : query_stock_rank df sc n = (some rs, none)) :
    ∃ code, pyInt sc = some code ∧ code ∈ df.idCol ∧ n ≤ (df.dateCols.length : Int) ∧
      rs = (recentColumns df n).foldl
        (fun d c => dictInsert d c.1
          (colRank c.2 (c.2.getD (df.idCol.findIdx fun x => decide (x = code)) default))) [] := by
  cases hp : pyInt sc with
  | none => rw [query_invalid df sc n hp] at h; simp at h
  | some code =>
    refine ⟨code, rfl, ?_⟩
    by_cases hm : code ∈ df.idCol
    · by_cases hgt : (df.dateCols.length : Int) < n
      · rw [query_exceeds df sc n code hp hm hgt] at h
        simp at h
      · have hle : n ≤ (df.dateCols.length : Int) := by omega
        rw [query_success df sc n code hp hm hle] at h
        refine ⟨hm, hle, ?_⟩
        have := (Prod.mk.injEq _ _ _ _ ▸ h).1
        exact (Option.some.inj this).symm
    · rw [query_notfound df sc n code hp hm] at h
      simp at h

theorem getLast?_mem {l : List Char} {x : Char} (h : l.getLast? = some x) : x ∈ l := by
  have := List.head?_reverse l
  rw [h] at this
  exact List.mem_reverse.mp (head?_mem this)

theorem foldl_dictInsert_ne_nil {α : Type} (g : String × List α → Nat) :
    ∀ (cols : List (String × List α)), cols ≠ [] →
      cols.foldl (fun d c => dictInsert d c.1 (g c)) [] ≠ [] := by
  intro cols hc
  cases cols with
  | nil => exact absurd rfl hc
  | cons c t =>
    rw [List.foldl_cons]
    have h0 : dictInsert [] c.1 (g c) = [(c.1, g c)] := by simp [dictInsert]
    rw [h0]
    intro hnil
    have hlen := length_le_foldl_dictInsert g t [(c.1, g c)]
    rw [hnil] at hlen
    simp at hlen

theorem target_mem {α : Type} [LinearOrder α] [Inhabited α]
    {df : DataFrame α} {code : Int} {c : String × List α}
    (hm : code ∈ df.idCol) (hrect : c.2.length = df.idCol.length) :
    c.2.getD (df.idCol.findIdx fun x => decide (x = code)) default ∈ c.2 := by
  have hrow : df.idCol.findIdx (fun x => decide (x = code)) < df.idCol.length :=
    List.findIdx_lt_length_of_exists ⟨code, hm, by simp⟩
  have hrow2 : df.idCol.findIdx (fun x => decide (x = code)) < c.2.length := by omega
  rw [List.getD_eq_getElem?_getD, List.getElem?_eq_getElem hrow2]
  exact List.getElem_mem hrow2

theorem process_cell_eq_of_not_match {v : String}
    (h : matchesDigits16 (stripSuffixes v) = false) : process_cell v = stripSuffixes v := by
  simp [process_cell, h]

theorem process_cell_eq_of_match {v : String}
    (h : matchesDigits16 (stripSuffixes v) = true) :
    process_cell v = pyZfill (stripSuffixes v) 6 := by
  simp [process_cell, h]

theorem pyZfill_length_ge (s : String) (n : Nat) : n ≤ (pyZfill s n).data.length := by
  unfold pyZfill
  by_cases h : n ≤ s.data.length
  · rw [if_pos h]
    exact h
  · rw [if_neg h]
    cases hd : s.data with
    | nil => simp
    | cons c rest =>
      rw [hd] at h
      show n ≤ (if (c == '+' || c == '-') = true then
          (⟨c :: (List.replicate (n - (c :: rest).length) '0' ++ rest)⟩ : String)
        else ⟨List.replicate (n - (c :: rest).length) '0' ++ c :: rest⟩).data.length
      by_cases hsign : (c == '+' || c == '-') = true
      · rw [if_pos hsign]
        show n ≤ (c :: (List.replicate (n - (c :: rest).length) '0' ++ rest)).length
        simp only [List.length_cons, List.length_append, List.length_replicate] at h ⊢
        omega
      · rw [if_neg hsign]
        show n ≤ (List.replicate (n - (c :: rest).length) '0' ++ c :: rest).length
        simp only [List.length_cons, List.length_append, List.length_replicate] at h ⊢
        omega

theorem pyZfill_of_ge {s : String} {n : Nat} (h : n ≤ s.data.length) : pyZfill s n = s := by
  unfold pyZfill
  rw [if_pos h]

theorem pyIsdigit_eq_false_of_ascii_nondigit {s : String} {c : Char}
    (hc : c ∈ s.data) (hascii : c.toNat < 128) (hnd : c.isDigit = false) :
    pyIsdigit s = false := by
  have hnotmem : c ∉ pyDigitExtras := by
    intro hmem
    have hge : ∀ d ∈ pyDigitExtras, 128 ≤ d.toNat := by decide
    have := hge c hmem
    omega
  have hchar : pyIsdigitChar c = false := by
    simp [pyIsdigitChar, hnd, hnotmem]
  have hall : s.data.all pyIsdigitChar = false := by
    cases hall2 : s.data.all pyIsdigitChar with
    | false => rfl
    | true =>
      exfalso
      rw [List.all_eq_true] at hall2
      have := hall2 c hc
      rw [hchar] at this
      exact Bool.noConfusion this
  unfold pyIsdigit
  rw [hall]
  simp

/-! ### The claims -/

/-- C3: for every table and valid code matching a row, if `n_days` exceeds
`total column count - 1`, `query_stock_rank` returns no result and the
"exceeds available history" error reporting exactly
`max_days = total column count - 1`. -/
theorem claimC3_exceeds_window {α : Type} [LinearOrder α] [Inhabited α]
    (df : DataFrame α) (stock_code : String) (n_days : Int) (code : Int)
    (hparse : pyInt stock_code = some code) (hmem : code ∈ df.idCol)
    (hgt : (df.numCols : Int) - 1 < n_days) :
    query_stock_rank df stock_code n_days =
      (none, some ("查询天数超过最大天数 " ++ toString ((df.numCols : Int) - 1))) := by
  have h1 : (df.dateCols.length : Int) < n_days := by
    unfold DataFrame.numCols at hgt
    push_cast at hgt
    omega
  have h2 : ((df.numCols : Int) - 1) = ((df.dateCols.length : Int) + 1 - 1) := by
    unfold DataFrame.numCols
    push_cast
    ring
  rw [query_exceeds df stock_code n_days code hparse hmem h1, h2]

/-- Witness for C3 on a concrete table: two date columns, `n_days = 5`. -/
theorem claimC3_witness :
    query_stock_rank tableA "000001" 5 =
      (none, some ("查询天数超过最大天数 " ++ toString ((tableA.numCols : Int) - 1))) :=
  claimC3_exceeds_window tableA "000001" 5 1 (by decide) (by decide) (by decide)

/-- C4 (amended): a target code that does not parse as an integer yields
the "invalid code" error from the query, identically for any two tables.
Through the request handler, such a code is rejected before any file
processing when it has the wrong length or contains an ASCII non-digit
character; but a six-character code made of digit-class characters that
`int()` rejects (such as `"²²²²²²"`) passes the `isdigit()`/length
check, so file processing runs and the invalid-code error page then
reports `max_days = column count - 1`. -/
theorem claimC4_invalid_code {α : Type} [LinearOrder α] [Inhabited α]
    (stock_code : String) (h : pyInt stock_code = none) :
    (∀ (df : DataFrame α) (n_days : Int),
      query_stock_rank df stock_code n_days = (none, some "股票代码必须是六位数字")) ∧
    (∀ (df df' : DataFrame α) (n n' : Int),
      query_stock_rank df stock_code n = query_stock_rank df' stock_code n') ∧
    (∀ (processed : Option (DataFrame α)) (nf : String) (m : Int), pyInt nf = some m →
      stock_code.length ≠ 6 →
      index processed stock_code nf = HandlerResult.errorPage "股票代码必须是六位数字" none) ∧
    (∀ (processed : Option (DataFrame α)) (nf : String) (m : Int), pyInt nf = some m →
      (∃ c ∈ stock_code.data, c.toNat < 128 ∧ c.isDigit = false) →
      index processed stock_code nf = HandlerResult.errorPage "股票代码必须是六位数字" none) ∧
    (∀ (df : DataFrame α) (nf : String) (m : Int), pyInt nf = some m →
      pyIsdigit stock_code = true → stock_code.length = 6 →
      index (some df) stock_code nf =
        HandlerResult.errorPage "股票代码必须是六位数字"
          (some ((df.dateCols.length + 1 : Int) - 1))) := by
  refine ⟨fun df n => query_invalid df stock_code n h, ?_, ?_, ?_, ?_⟩
  · intro df df' n n'
    rw [query_invalid df stock_code n h, query_invalid df' stock_code n' h]
  · intro processed nf m hm hlen
    simp [index, hm, hlen]
  · intro processed nf m hm hex
    obtain ⟨c, hc, hascii, hnd⟩ := hex
    have hdig := pyIsdigit_eq_false_of_ascii_nondigit hc hascii hnd
    simp [index, hm, hdig]
  · intro df nf m hm hdig hlen
    simp [index, hm, hdig, hlen, query_invalid df stock_code m h]

/-- C4 counterexample: the code `"²²²²²²"` does not parse as an integer,
yet it passes the handler check at line 134 (Python `isdigit()` accepts
digit-class characters `int()` rejects), so the outcome depends on the
file-processing result — file I/O has happened — and the invalid-code
error page carries `max_days` rather than no maximum, and differs
between tables. -/
theorem claimC4_cex :
    pyInt "²²²²²²" = none ∧
    pyIsdigit "²²²²²²" = true ∧
    ("²²²²²²" : String).length = 6 ∧
    index (some tableA) "²²²²²²" "1" =
      HandlerResult.errorPage "股票代码必须是六位数字" (some 2) ∧
    index (none : Option (DataFrame Int)) "²²²²²²" "1" =
      HandlerResult.plainText "文件处理失败，请检查文件路径。" ∧
    index (some tableA) "²²²²²²" "1" ≠ index (some tableB) "²²²²²²" "1" :=
  ⟨by decide, by decide, by decide, by decide, by decide, by decide⟩

/-- Witness for the amended C4: a non-parsing code over two unrelated
tables, a wrong-length and an ASCII non-digit pre-processing rejection,
and the digit-class leak through the handler check. -/
theorem claimC4_witness :
    query_stock_rank tableA "12cd" 3 = (none, some "股票代码必须是六位数字") ∧
    query_stock_rank tableA "12cd" 3 = query_stock_rank tableB "12cd" 7 ∧
    index (some tableA) "12cd" "5" = HandlerResult.errorPage "股票代码必须是六位数字" none ∧
    index (some tableA) "12cd34" "5" = HandlerResult.errorPage "股票代码必须是六位数字" none ∧
    index (some tableA) "²²²²²²" "5" =
      HandlerResult.errorPage "股票代码必须是六位数字"
        (some ((tableA.dateCols.length + 1 : Int) - 1)) := by
  have h1 := claimC4_invalid_code (α := Int) "12cd" (by decide)
  have h2 := claimC4_invalid_code (α := Int) "12cd34" (by decide)
  have h3 := claimC4_invalid_code (α := Int) "²²²²²²" (by decide)
  exact ⟨h1.1 tableA 3, h1.2.1 tableA tableB 3 7,
    h1.2.2.1 (some tableA) "5" 5 (by decide) (by decide),
    h2.2.2.2.1 (some tableA) "5" 5 (by decide) ⟨'c', by decide, by decide, by decide⟩,
    h3.2.2.2.2 tableA "5" 5 (by decide) (by decide) (by decide)⟩

/-- C10: a POST whose `n_days` field is not integer text hits the
`int()` conversion before any other validation; the conversion raises an
uncaught exception, so no error page is rendered. -/
theorem claimC10_n_days_first {α : Type} [LinearOrder α] [Inhabited α]
    (processed : Option (DataFrame α)) (stock_code n_days_field : String)
    (h : pyInt n_days_field = none) :
    index processed stock_code n_days_field = HandlerResult.valueError ∧
    ∀ (msg : String) (md : Option Int),
      index processed stock_code n_days_field ≠ HandlerResult.errorPage msg md := by
  have he : index processed stock_code n_days_field = HandlerResult.valueError := by
    simp [index, h]
  refine ⟨he, fun msg md hc => ?_⟩
  rw [he] at hc
  exact HandlerResult.noConfusion hc

/-- Witness for C10: even with a well-formed six-digit code and a loaded
table, a malformed `n_days` field escapes as an exception. -/
theorem claimC10_witness :
    index (some tableA) "000001" "2x" = HandlerResult.valueError ∧
    index (some tableA) "000001" "2x" ≠ HandlerResult.errorPage "x" none := by
  have h := claimC10_n_days_first (some tableA) "000001" "2x" (by decide)
  exact ⟨h.1, h.2 "x" none⟩

/-- C8: `generate_rank_text` emits the tab-separated header and then one
newline-terminated `label<TAB>rank` line per entry in order; on the
series `d1 ↦ 1, d2 ↦ 2` the output is the exact expected block. -/
theorem claimC8_render_text :
    generate_rank_text [] = "日期\t排名\n" ∧
    (∀ (rs : List (String × Nat)) (k : String) (v : Nat),
      generate_rank_text (rs ++ [(k, v)]) =
        generate_rank_text rs ++ k ++ "\t" ++ toString v ++ "\n") ∧
    generate_rank_text [("d1", 1), ("d2", 2)] = "日期\t排名\nd1\t1\nd2\t2\n" := by
  refine ⟨rfl, ?_, by decide⟩
  intro rs k v
  unfold generate_rank_text
  rw [List.foldl_append]
  rfl

/-- C2: for a code matching a row and `0 < n_days ≤ columns - 1`, the
successful result covers exactly the last `n_days` date columns before
the identifier column, in their original left-to-right order. -/
theorem claimC2_window {α : Type} [LinearOrder α] [Inhabited α]
    (df : DataFrame α) (stock_code : String) (n_days : Int) (code : Int)
    (hparse : pyInt stock_code = some code) (hmem : code ∈ df.idCol)
    (h1 : 1 ≤ n_days) (h2 : n_days ≤ (df.numCols : Int) - 1)
    (hnd : (df.dateCols.map Prod.fst).Nodup) :
    ∃ rs, query_stock_rank df stock_code n_days = (some rs, none) ∧
      rs.length = n_days.toNat ∧
      rs.map Prod.fst =
        (df.dateCols.map Prod.fst).drop (df.dateCols.length - n_days.toNat) := by
  have h2' : n_days ≤ (df.dateCols.length : Int) := by
    unfold DataFrame.numCols at h2
    push_cast at h2
    omega
  rw [query_success df stock_code n_days code hparse hmem h2']
  have hrc : recentColumns df n_days
      = df.dateCols.drop (df.dateCols.length - n_days.toNat) := by
    unfold recentColumns
    rw [pySliceStart_window h1 h2']
  have hnd2 : ((([] : List (String × Nat)).map Prod.fst)
      ++ (recentColumns df n_days).map Prod.fst).Nodup := by
    simp only [List.map_nil, List.nil_append, hrc, List.map_drop]
    exact hnd.sublist (List.drop_sublist _ _)
  refine ⟨_, rfl, ?_, ?_⟩
  · rw [foldl_dictInsert_eq_map _ _ [] hnd2, List.nil_append, List.length_map, hrc,
      List.length_drop]
    omega
  · rw [foldl_dictInsert_eq_map _ _ [] hnd2, List.nil_append, hrc]
    rw [List.map_map, List.map_drop]
    rfl

/-- Witness for C2 on the sample table with `n_days = 2`. -/
theorem claimC2_witness :
    ∃ rs, query_stock_rank tableA "000001" 2 = (some rs, none) ∧
      rs.length = (2 : Int).toNat ∧
      rs.map Prod.fst =
        (tableA.dateCols.map Prod.fst).drop (tableA.dateCols.length - (2 : Int).toNat) :=
  claimC2_window tableA "000001" 2 1 (by decide) (by decide) (by decide) (by decide)
    (by decide)

/-- C5 counterexample: with a matching code and `n_days = 0`,
`query_stock_rank` returns an empty mapping together with no error, so
neither component of the pair is populated. -/
theorem claimC5_cex :
    query_stock_rank tableA "000001" 0 = (some [], none) ∧
    ¬ ((∃ rs, query_stock_rank tableA "000001" 0 = (some rs, none) ∧ rs ≠ []) ∨
       ((query_stock_rank tableA "000001" 0).1 = none ∧
         ∃ msg, (query_stock_rank tableA "000001" 0).2 = some msg)) := by
  have he : query_stock_rank tableA "000001" 0 = (some [], none) := by decide
  refine ⟨he, ?_⟩
  rintro (⟨rs, heq, hne⟩ | ⟨h1, msg, h2⟩)
  · rw [he] at heq
    simp only [Prod.mk.injEq, Option.some.injEq] at heq
    exact hne heq.1.symm
  · rw [he] at h2
    simp at h2

/-- C5 (amended): for `n_days ≥ 1` and distinct column labels, exactly
one component of the returned pair is populated: a non-empty rank
mapping with no error, or no result with an error message.  (With
`n_days ≤ 0` and a matching code the code instead returns an empty
mapping and no error, as the counterexample shows.) -/
theorem claimC5_dichotomy {α : Type} [LinearOrder α] [Inhabited α]
    (df : DataFrame α) (stock_code : String) (n_days : Int)
    (h1 : 1 ≤ n_days) (_hnd : (df.dateCols.map Prod.fst).Nodup) :
    (∃ rs, query_stock_rank df stock_code n_days = (some rs, none) ∧ rs ≠ []) ∨
    ((query_stock_rank df stock_code n_days).1 = none ∧
      ∃ msg, (query_stock_rank df stock_code n_days).2 = some msg) := by
  cases hp : pyInt stock_code with
  | none =>
    right
    rw [query_invalid df _ _ hp]
    exact ⟨rfl, _, rfl⟩
  | some code =>
    by_cases hm : code ∈ df.idCol
    · by_cases hgt : (df.dateCols.length : Int) < n_days
      · right
        rw [query_exceeds df _ _ code hp hm hgt]
        exact ⟨rfl, _, rfl⟩
      · left
        have hle : n_days ≤ (df.dateCols.length : Int) := by omega
        rw [query_success df _ _ code hp hm hle]
        refine ⟨_, rfl, ?_⟩
        apply foldl_dictInsert_ne_nil
        have hrc : recentColumns df n_days
            = df.dateCols.drop (df.dateCols.length - n_days.toNat) := by
          unfold recentColumns
          rw [pySliceStart_window h1 hle]
        have hlen : (recentColumns df n_days).length = n_days.toNat := by
          rw [hrc, List.length_drop]
          omega
        intro hnil
        rw [hnil] at hlen
        simp at hlen
        omega
    · right
      rw [query_notfound df _ _ code hp hm]
      exact ⟨rfl, _, rfl⟩

/-- Witness for the amended C5: all three outcome shapes at `n_days = 1`. -/
theorem claimC5_witness :
    ((∃ rs, query_stock_rank tableA "000001" 1 = (some rs, none) ∧ rs ≠ []) ∨
      ((query_stock_rank tableA "000001" 1).1 = none ∧
        ∃ msg, (query_stock_rank tableA "000001" 1).2 = some msg)) ∧
    ((∃ rs, query_stock_rank tableA "999999" 1 = (some rs, none) ∧ rs ≠ []) ∨
      ((query_stock_rank tableA "999999" 1).1 = none ∧
        ∃ msg, (query_stock_rank tableA "999999" 1).2 = some msg)) :=
  ⟨claimC5_dichotomy tableA "000001" 1 (by decide) (by decide),
   claimC5_dichotomy tableA "999999" 1 (by decide) (by decide)⟩

/-- C9: whenever the query succeeds, every rank in the mapping lies
between 1 and the number of rows of the table. -/
theorem claimC9_rank_bounds {α : Type} [LinearOrder α] [Inhabited α]
    (df : DataFrame α) (stock_code : String) (n_days : Int) (rs : List (String × Nat))
    (hsucc : query_stock_rank df stock_code n_days = (some rs, none))
    (hnd : (df.dateCols.map Prod.fst).Nodup)
    (hrect : ∀ c ∈ df.dateCols, c.2.length = df.idCol.length) :
    ∀ p ∈ rs, 1 ≤ p.2 ∧ p.2 ≤ df.idCol.length := by
  obtain ⟨code, hp, hm, hle, hrs⟩ := query_success_inv hsucc
  have hnd2 : ((([] : List (String × Nat)).map Prod.fst)
      ++ (recentColumns df n_days).map Prod.fst).Nodup := by
    simp only [List.map_nil, List.nil_append]
    unfold recentColumns
    rw [List.map_drop]
    exact hnd.sublist (List.drop_sublist _ _)
  rw [hrs, foldl_dictInsert_eq_map _ _ [] hnd2, List.nil_append]
  intro p hp2
  obtain ⟨c, hcmem, hceq⟩ := List.mem_map.mp hp2
  have hcdate : c ∈ df.dateCols := by
    unfold recentColumns at hcmem
    exact List.mem_of_mem_drop hcmem
  have hlen : c.2.length = df.idCol.length := hrect c hcdate
  have htmem : c.2.getD (df.idCol.findIdx fun x => decide (x = code)) default ∈ c.2 :=
    target_mem hm hlen
  rw [← hceq]
  exact ⟨colRank_pos _ _, hlen ▸ colRank_le_length htmem⟩

/-- Witness for C9: in the concrete successful query on the sample
table, the entry for column `d2` has its rank within `1..2`. -/
theorem claimC9_witness :
    1 ≤ (("d2", 2) : String × Nat).2 ∧
      (("d2", 2) : String × Nat).2 ≤ tableA.idCol.length :=
  claimC9_rank_bounds tableA "000001" 2 [("d1", 1), ("d2", 2)] (by decide) (by decide)
    (by decide) ("d2", 2) (by decide)

/-- C1: on a successful query, the rank reported for each selected date
column is one plus the index of the first value equal to the target
row's value in the descending sort of the column; in particular a column
where the target holds the maximum value gets rank 1. -/
theorem claimC1_first_match {α : Type} [LinearOrder α] [Inhabited α]
    (df : DataFrame α) (stock_code : String) (n_days : Int) (code : Int)
    (hparse : pyInt stock_code = some code) (hmem : code ∈ df.idCol)
    (hle : n_days ≤ (df.numCols : Int) - 1)
    (hnd : (df.dateCols.map Prod.fst).Nodup)
    (hrect : ∀ c ∈ df.dateCols, c.2.length = df.idCol.length) :
    ∃ rs, query_stock_rank df stock_code n_days = (some rs, none) ∧
      ∀ p ∈ recentColumns df n_days,
        dictLookup rs p.1 =
          some ((sortDesc p.2).findIdx
            (fun x => decide (x =
              p.2.getD (df.idCol.findIdx fun y => decide (y = code)) default)) + 1) ∧
        ((∀ x ∈ p.2,
            x ≤ p.2.getD (df.idCol.findIdx fun y => decide (y = code)) default) →
          dictLookup rs p.1 = some 1) := by
  have hle' : n_days ≤ (df.dateCols.length : Int) := by
    unfold DataFrame.numCols at hle
    push_cast at hle
    omega
  rw [query_success df stock_code n_days code hparse hmem hle']
  have hndrec : ((recentColumns df n_days).map Prod.fst).Nodup := by
    unfold recentColumns
    rw [List.map_drop]
    exact hnd.sublist (List.drop_sublist _ _)
  have hnd2 : ((([] : List (String × Nat)).map Prod.fst)
      ++ (recentColumns df n_days).map Prod.fst).Nodup := by
    simpa using hndrec
  refine ⟨_, rfl, ?_⟩
  intro p hp
  rw [foldl_dictInsert_eq_map _ _ [] hnd2, List.nil_append]
  have hlk := dictLookup_map_self
    (fun c => colRank c.2 (c.2.getD (df.idCol.findIdx fun x => decide (x = code)) default))
    (recentColumns df n_days) hndrec p hp
  constructor
  · rw [hlk]
    rfl
  · intro hmax
    have hpdate : p ∈ df.dateCols := by
      unfold recentColumns at hp
      exact List.mem_of_mem_drop hp
    have htmem : p.2.getD (df.idCol.findIdx fun y => decide (y = code)) default ∈ p.2 :=
      target_mem hmem (hrect p hpdate)
    rw [hlk]
    show some (colRank p.2
      (p.2.getD (df.idCol.findIdx fun y => decide (y = code)) default)) = some 1
    rw [colRank_eq_one_of_max htmem hmax]

/-- Witness for C1 on the sample table: in column `d1` the target row
holds the maximum, and its reported rank is 1. -/
theorem claimC1_witness :
    ∃ rs, query_stock_rank tableA "000001" 2 = (some rs, none) ∧
      ∀ p ∈ recentColumns tableA 2,
        dictLookup rs p.1 =
          some ((sortDesc p.2).findIdx
            (fun x => decide (x =
              p.2.getD (tableA.idCol.findIdx fun y => decide (y = 1)) default)) + 1) ∧
        ((∀ x ∈ p.2,
            x ≤ p.2.getD (tableA.idCol.findIdx fun y => decide (y = 1)) default) →
          dictLookup rs p.1 = some 1) :=
  claimC1_first_match tableA "000001" 2 1 (by decide) (by decide) (by decide) (by decide)
    (by decide)

theorem pyZfill6_digits {s : String} (h1 : s.data ≠ []) (h2 : s.data.length ≤ 6)
    (h3 : s.data.all Char.isDigit = true) :
    (pyZfill s 6).data.length = 6 ∧ (pyZfill s 6).data.all Char.isDigit = true := by
  by_cases hlen : 6 ≤ s.data.length
  · rw [pyZfill_of_ge hlen]
    exact ⟨le_antisymm h2 hlen, h3⟩
  · unfold pyZfill
    rw [if_neg hlen]
    cases hd : s.data with
    | nil => exact absurd hd h1
    | cons c rest =>
      rw [hd] at h2 h3
      have hc : c.isDigit = true := by
        simp only [List.all_cons, Bool.and_eq_true] at h3
        exact h3.1
      have hplus : c ≠ '+' := by
        intro he
        rw [he] at hc
        exact absurd hc (by decide)
      have hminus : c ≠ '-' := by
        intro he
        rw [he] at hc
        exact absurd hc (by decide)
      have hsign : ¬ ((c == '+' || c == '-') = true) := by simp [hplus, hminus]
      show ((if (c == '+' || c == '-') = true then
            (⟨c :: (List.replicate (6 - (c :: rest).length) '0' ++ rest)⟩ : String)
          else ⟨List.replicate (6 - (c :: rest).length) '0' ++ c :: rest⟩)).data.length = 6 ∧
        ((if (c == '+' || c == '-') = true then
            (⟨c :: (List.replicate (6 - (c :: rest).length) '0' ++ rest)⟩ : String)
          else ⟨List.replicate (6 - (c :: rest).length) '0' ++ c :: rest⟩)).data.all
          Char.isDigit = true
      rw [if_neg hsign]
      constructor
      · show (List.replicate (6 - (c :: rest).length) '0' ++ c :: rest).length = 6
        simp only [List.length_append, List.length_replicate, List.length_cons] at h2 ⊢
        omega
      · show (List.replicate (6 - (c :: rest).length) '0' ++ c :: rest).all
          Char.isDigit = true
        simp only [List.all_eq_true] at h3 ⊢
        intro x hx
        rcases List.mem_append.mp hx with hx1 | hx2
        · rw [List.eq_of_mem_replicate hx1]
          decide
        · exact h3 x hx2

/-- C6 (amended): a value whose suffix-stripped remainder is 1–6 ASCII
digits becomes a 6-character numeric string; a remainder failing the
code's digit test is returned stripped but otherwise unchanged; and
normalization is idempotent on every value whose first result is left
fixed by another round of suffix stripping.  (Unconditional idempotence
fails: stripping can create a new suffix occurrence, see the
counterexample.) -/
theorem claimC6_normalize_cell (v : String) :
    ((stripSuffixes v).data ≠ [] → (stripSuffixes v).data.length ≤ 6 →
      (stripSuffixes v).data.all Char.isDigit = true →
      (process_cell v).data.length = 6 ∧ (process_cell v).data.all Char.isDigit = true) ∧
    (matchesDigits16 (stripSuffixes v) = false → process_cell v = stripSuffixes v) ∧
    (stripSuffixes (process_cell v) = process_cell v →
      process_cell (process_cell v) = process_cell v) := by
  refine ⟨?_, fun h => process_cell_eq_of_not_match h, ?_⟩
  · intro h1 h2 h3
    have hdigits : ∀ c ∈ (stripSuffixes v).data, c.isDigit = true := by
      simpa [List.all_eq_true] using h3
    have hnl : ((stripSuffixes v).data.getLast? == some '\n') = false := by
      cases hgl : (stripSuffixes v).data.getLast? with
      | none => rfl
      | some c =>
        have hc := hdigits c (getLast?_mem hgl)
        have hcne : c ≠ '\n' := by
          intro he
          rw [he] at hc
          exact absurd hc (by decide)
        simp [hcne]
    have hmatch : matchesDigits16 (stripSuffixes v) = true := by
      simp only [matchesDigits16, hnl, Bool.false_eq_true, if_false, Bool.and_eq_true,
        Bool.not_eq_true', List.isEmpty_eq_false, decide_eq_true_eq]
      exact ⟨⟨h1, h2⟩, h3⟩
    rw [process_cell_eq_of_match hmatch]
    exact pyZfill6_digits h1 h2 h3
  · intro hfix
    cases hmw : matchesDigits16 (stripSuffixes v) with
    | false =>
      have hz := process_cell_eq_of_not_match hmw
      have hmz : matchesDigits16 (stripSuffixes (process_cell v)) = false := by
        rw [hfix, hz]
        exact hmw
      rw [process_cell_eq_of_not_match hmz, hfix]
    | true =>
      have hz := process_cell_eq_of_match hmw
      have hlen : 6 ≤ (process_cell v).data.length := by
        rw [hz]
        exact pyZfill_length_ge _ _
      cases hmz : matchesDigits16 (stripSuffixes (process_cell v)) with
      | false => rw [process_cell_eq_of_not_match hmz, hfix]
      | true => rw [process_cell_eq_of_match hmz, hfix, pyZfill_of_ge hlen]

/-- C6 counterexample: suffix stripping can create a fresh suffix, so
`normalize_cell` is not idempotent: one round maps `".c.csvsv"` to
`".csv"` and a second round erases it. -/
theorem claimC6_cex :
    process_cell ".c.csvsv" = ".csv" ∧
    process_cell (process_cell ".c.csvsv") = "" ∧
    process_cell (process_cell ".c.csvsv") ≠ process_cell ".c.csvsv" := by
  exact ⟨by decide, by decide, by decide⟩

/-- Witness for the amended C6 at three concrete cells. -/
theorem claimC6_witness :
    ((process_cell "1.SH").data.length = 6 ∧
      (process_cell "1.SH").data.all Char.isDigit = true) ∧
    process_cell "0.123" = stripSuffixes "0.123" ∧
    process_cell (process_cell "000001") = process_cell "000001" :=
  ⟨(claimC6_normalize_cell "1.SH").1 (by decide) (by decide) (by decide),
   (claimC6_normalize_cell "0.123").2.1 (by decide),
   (claimC6_normalize_cell "000001").2.2 (by decide)⟩

/-- C7 (amended): `process_header` keeps length and order and rewrites
each label by removing every `"00:00:00"` occurrence and then trimming
whitespace; a label the removal leaves unchanged is returned merely
trimmed (so a label with surrounding whitespace is still changed); and
re-normalizing is a no-op whenever removal leaves each already-processed
label unchanged.  (Unconditional idempotence fails: removal can create a
fresh occurrence, see the counterexample.) -/
theorem claimC7_normalize_headers (header : List String) :
    (process_header header).length = header.length ∧
    process_header header = header.map (fun col => pyStrip (pyReplace col "00:00:00")) ∧
    (∀ col : String, pyReplace col "00:00:00" = col → process_header [col] = [pyStrip col]) ∧
    ((∀ col ∈ header, pyReplace (pyStrip (pyReplace col "00:00:00")) "00:00:00"
        = pyStrip (pyReplace col "00:00:00")) →
      process_header (process_header header) = process_header header) := by
  refine ⟨by simp [process_header], rfl, ?_, ?_⟩
  · intro col hfix
    simp [process_header, hfix]
  · intro hall
    unfold process_header
    rw [List.map_map]
    apply List.map_congr_left
    intro col hc
    show pyStrip (pyReplace (pyStrip (pyReplace col "00:00:00")) "00:00:00")
      = pyStrip (pyReplace col "00:00:00")
    rw [hall col hc, pyStrip_idem]

/-- C7 counterexample: the label `" a "` contains no `"00:00:00"`
occurrence (removal is a no-op on it), yet `process_header` does not
return it unchanged — it is whitespace-trimmed.  Idempotence also fails:
removing `"00:00:00"` from `"00:0000:00:00:00"` creates a fresh
occurrence, which a second pass then removes. -/
theorem claimC7_cex :
    pyReplace " a " "00:00:00" = " a " ∧
    process_header [" a "] = ["a"] ∧
    process_header [" a "] ≠ [" a "] ∧
    process_header ["00:0000:00:00:00"] = ["00:00:00"] ∧
    process_header (process_header ["00:0000:00:00:00"])
      ≠ process_header ["00:0000:00:00:00"] := by
  exact ⟨by decide, by decide, by decide, by decide, by decide⟩

/-- Witness for the amended C7 at concrete labels. -/
theorem claimC7_witness :
    (process_header ["a", "b 00:00:00"]).length = (["a", "b 00:00:00"] : List String).length ∧
    process_header ["abc"] = [pyStrip "abc"] ∧
    process_header (process_header ["b 00:00:00"]) = process_header ["b 00:00:00"] :=
  ⟨(claimC7_normalize_headers ["a", "b 00:00:00"]).1,
   (claimC7_normalize_headers []).2.2.1 "abc" (by decide),
   (claimC7_normalize_headers ["b 00:00:00"]).2.2.2 (by decide)⟩
